import Mathlib

/-
  Verification of the MCTS search driver in src/src/UCTSearch.cpp
  (leela-chess).  The file shallowly embeds play_simulation, the
  think/ponder/worker driver loops and get_best_move.  Collaborator code
  that is not part of the repository snapshot under src/ (the UCTNode
  methods, the SearchResult class, the transposition table and the rules
  engine) is modelled from the specification, as marked on each
  definition.  Machine floats are modelled as exact rationals.
-/

/-- Moves are opaque identifiers supplied by the rules engine. -/
abbrev Move := Nat

/-- Modelled from the spec: the sentinel move value, meaning no move / resign. -/
def MOVE_NONE : Move := 0

/-- Modelled from the spec: a game position.  The rules engine is opaque;
a position is represented by the side to move, the number of game plies
played before the search root, and the list of moves played from the
search root.  All rule queries (draw, legal moves, checkers, hash) are
opaque functions of the position, packaged in the Game structure below. -/
structure Position where
  stm : Bool
  ply0 : Nat
  hist : List Move
deriving DecidableEq

/-- Modelled from the spec: game_ply, the number of plies since game start. -/
def game_ply (p : Position) : Nat := p.ply0 + p.hist.length

/-- Modelled from the spec: scoped do_move.  Playing a move flips the side
to move and extends the move history. -/
def do_move (p : Position) (m : Move) : Position :=
  ⟨!p.stm, p.ply0, p.hist ++ [m]⟩

/-- Modelled from the spec: scoped undo_move, inverse of do_move for the
move that was just played. -/
def undo_move (p : Position) (_m : Move) : Position :=
  ⟨!p.stm, p.ply0, p.hist.dropLast⟩

/-- Modelled from the spec: SearchResult is a tagged value, either invalid
(no result produced this descent) or an evaluation. -/
inductive SearchResult where
  | invalid : SearchResult
  | valued : ℚ → SearchResult
deriving DecidableEq

/-- Modelled from the spec: from_score maps a terminal outcome s to an
evaluation by (s + 1) / 2. -/
def SearchResult.from_score (s : ℚ) : SearchResult :=
  .valued ((s + 1) / 2)

/-- Modelled from the spec: from_eval wraps an evaluator output. -/
def SearchResult.from_eval (e : ℚ) : SearchResult :=
  .valued e

/-- Modelled from the spec: validity test of a SearchResult. -/
def SearchResult.valid : SearchResult → Bool
  | .invalid => false
  | .valued _ => true

/-- Modelled from the spec: the evaluation carried by a valid SearchResult. -/
def SearchResult.evalValue : SearchResult → ℚ
  | .invalid => 0
  | .valued e => e

/-- Modelled from the spec: a UCT tree node with the move that led here,
the prior score, the visit count, the accumulated evaluation, the
virtual-loss counter and the list of children. -/
inductive UCTNode : Type where
  | mk : Move → ℚ → Nat → ℚ → Int → List UCTNode → UCTNode

/-- Move that led from the parent to this node. -/
def UCTNode.move : UCTNode → Move
  | .mk m _ _ _ _ _ => m

/-- Prior policy score of this node. -/
def UCTNode.score : UCTNode → ℚ
  | .mk _ s _ _ _ _ => s

/-- Visit count of this node. -/
def UCTNode.visits : UCTNode → Nat
  | .mk _ _ v _ _ _ => v

/-- Accumulated evaluation sum of this node. -/
def UCTNode.evalSum : UCTNode → ℚ
  | .mk _ _ _ e _ _ => e

/-- Virtual-loss counter of this node. -/
def UCTNode.vloss : UCTNode → Int
  | .mk _ _ _ _ l _ => l

/-- Children list of this node. -/
def UCTNode.children : UCTNode → List UCTNode
  | .mk _ _ _ _ _ cs => cs

/-- Modelled from the spec: has_children is true when the children list is
non-empty. -/
def UCTNode.has_children (n : UCTNode) : Bool :=
  !n.children.isEmpty

/-- Modelled from the spec: first_visit is true when the node was never
visited. -/
def UCTNode.first_visit (n : UCTNode) : Bool :=
  n.visits == 0

/-- Modelled from the spec: get_eval returns the mean evaluation from the
given side's perspective; the stored accumulator is from White's
perspective (the convention the source file uses when it backs up
terminal scores), so Black's view is one minus the mean. -/
def UCTNode.get_eval (n : UCTNode) (color : Bool) : ℚ :=
  if color then n.evalSum / (n.visits : ℚ) else 1 - n.evalSum / (n.visits : ℚ)

/-- The game-rules engine, the evaluator and the stochastic choices,
modelled from the spec as opaque function parameters.  selectIx stands for
UCTNode::uct_select_child (which child index a descent picks) and randIx
for the proportional randomization pick; both are out-of-scope
collaborators of the file under verification, so the theorems hold for
every choice of them. -/
structure Game where
  isDraw : Position → Bool
  legalMoves : Position → List Move
  checkers : Position → Bool
  key : Position → Nat
  netEval : Position → Option (ℚ × (Move → ℚ))
  evalState : Position → ℚ
  selectIx : Bool → List UCTNode → Nat
  randIx : List UCTNode → Nat
  maxTreeSize : Nat

/-- Modelled from the spec: UCTNode::eval_state invokes the evaluator
without expanding. -/
def eval_state (g : Game) (pos : Position) : ℚ :=
  g.evalState pos

/-- Modelled from the spec: UCTNode::create_children calls the evaluator;
on success it builds one child per legal move carrying its policy prior
and advances the global node counter by the number of children; on
evaluator failure it returns none and nothing changes. -/
def create_children (g : Game) (nodes : Nat) (pos : Position) :
    Option (List UCTNode × ℚ × Nat) :=
  match g.netEval pos with
  | none => none
  | some (e, pol) =>
      let cs := (g.legalMoves pos).map (fun m => UCTNode.mk m (pol m) 0 0 0 [])
      some (cs, e, nodes + cs.length)

/-- Shared mutable search state of one search: the global node counter
m_nodes and the transposition table, modelled from the spec as a list of
hash-to-statistics entries with newest entry first. -/
structure SimState where
  nodes : Nat
  tt : List (Nat × (Nat × ℚ))
deriving DecidableEq

/-- Lookup of the newest transposition-table entry for a hash. -/
def ttFind : List (Nat × (Nat × ℚ)) → Nat → Option (Nat × ℚ)
  | [], _ => none
  | (k, s) :: t, h => if k = h then some s else ttFind t h

/-- Modelled from the spec: the statistics-merging half of TTable::sync;
if a canonical entry is registered for the hash its visit and evaluation
statistics are adopted, otherwise the node keeps its own. -/
def ttMerge (tt : List (Nat × (Nat × ℚ))) (h : Nat) (vis : Nat) (ev : ℚ) :
    Nat × ℚ :=
  match ttFind tt h with
  | some s => s
  | none => (vis, ev)

/-- Result record of one descent: the SearchResult, the position after the
call, the updated node and the updated shared state. -/
structure SimOut where
  result : SearchResult
  pos : Position
  node : UCTNode
  st : SimState

/-- Common tail of play_simulation: update the node statistics when the
result is valid, undo the virtual loss, re-register the node in the
transposition table, and rebuild the node. -/
def finish_descent (mv : Move) (pr : ℚ) (vlIn : Int) (hash : Nat)
    (vis : Nat) (ev : ℚ) (csF : List UCTNode) (r : SearchResult)
    (pos : Position) (st : SimState) : SimOut :=
  let vis2 := if r.valid then vis + 1 else vis
  let ev2 := if r.valid then ev + r.evalValue else ev
  let node2 := UCTNode.mk mv pr vis2 ev2 (vlIn - 1) csF
  ⟨r, pos, node2, ⟨st.nodes, (hash, (vis2, ev2)) :: st.tt⟩⟩

/-- Leaf phase of UCTSearch::play_simulation (the body of the
no-children branch, lines 64 to 79 of the source): if the position is a
rules draw or has no legal moves it is terminal, with score 0 when drawn
or not in check and otherwise a White loss (-1) when White is to move and
a White win (+1) when Black is to move; else when the node counter is
below MAX_TREE_SIZE the node is expanded through create_children, a
failed expansion leaving the invalid result; else the position is
evaluated in place.  Returns the result, the children to install and the
updated shared state. -/
def leaf_step (g : Game) (pos : Position) (st1 : SimState) :
    SearchResult × List UCTNode × SimState :=
  let drawn := g.isDraw pos
  let nmoves := (g.legalMoves pos).length
  if drawn || (nmoves == 0) then
    let score : ℚ :=
      if drawn || !(g.checkers pos) then 0 else if pos.stm then -1 else 1
    (SearchResult.from_score score, [], st1)
  else if st1.nodes < g.maxTreeSize then
    match create_children g st1.nodes pos with
    | some (cs2, e, n2) => (SearchResult.from_eval e, cs2, ⟨n2, st1.tt⟩)
    | none => (SearchResult.invalid, [], st1)
  else
    (SearchResult.from_eval (eval_state g pos), [], st1)

/-- UCTSearch::play_simulation from src/src/UCTSearch.cpp.  One descent:
sync with the transposition table, apply virtual loss, then at a childless
node run the leaf phase (terminal scoring, expansion or in-place
evaluation); at an internal node select a child, play its move, recurse
and undo the move.  Finally the node is updated when the result is valid,
the virtual loss is undone and the table entry refreshed.  The source
re-tests has_children after the leaf phase; that test selects a child
exactly when the node already had children on entry (a successful
expansion always produces a valid result and a failed one leaves the node
childless), which is how the control flow is rendered here. -/
def play_simulation (g : Game) (pos : Position) (node : UCTNode)
    (st : SimState) : SimOut :=
  match node with
  | .mk mv pr vis0 ev0 vl cs =>
    let color := pos.stm
    let hash := g.key pos
    let ms := ttMerge st.tt hash vis0 ev0
    let st1 : SimState := ⟨st.nodes, (hash, ms) :: st.tt⟩
    let vlIn := vl + 1
    match cs with
    | [] =>
      let ls := leaf_step g pos st1
      finish_descent mv pr vlIn hash ms.1 ms.2 ls.2.1 ls.1 pos ls.2.2
    | c0 :: ct =>
      let i := g.selectIx color (c0 :: ct) % (c0 :: ct).length
      let child := (c0 :: ct).get ⟨i, Nat.mod_lt _ (Nat.succ_pos _)⟩
      let m := child.move
      let out := play_simulation g (do_move pos m) child st1
      let pos3 := undo_move out.pos m
      let cs2 := (c0 :: ct).set i out.node
      finish_descent mv pr vlIn hash ms.1 ms.2 cs2 out.result pos3 out.st
termination_by sizeOf node
decreasing_by
  simp only [UCTNode.mk.sizeOf_spec]
  have hlt := List.sizeOf_lt_of_mem (List.get_mem (c0 :: ct)
    (g.selectIx pos.stm (c0 :: ct) % (c0 :: ct).length)
    (Nat.mod_lt _ (Nat.succ_pos _)))
  omega

/-- The position and node pairs one descent of play_simulation visits,
root of the descent first.  The child a descent selects depends only on
the side to move and the children list (uct_select_child is the selectIx
oracle), so the path is a function of the position and the node alone and
mirrors the recursion of play_simulation exactly. -/
def descent_path (g : Game) (pos : Position) (node : UCTNode) :
    List (Position × UCTNode) :=
  match node with
  | .mk mv pr vis0 ev0 vl cs =>
    match cs with
    | [] => [(pos, UCTNode.mk mv pr vis0 ev0 vl [])]
    | c0 :: ct =>
      let i := g.selectIx pos.stm (c0 :: ct) % (c0 :: ct).length
      let child := (c0 :: ct).get ⟨i, Nat.mod_lt _ (Nat.succ_pos _)⟩
      (pos, UCTNode.mk mv pr vis0 ev0 vl (c0 :: ct))
        :: descent_path g (do_move pos child.move) child
termination_by sizeOf node
decreasing_by
  simp only [UCTNode.mk.sizeOf_spec]
  have hlt := List.sizeOf_lt_of_mem (List.get_mem (c0 :: ct)
    (g.selectIx pos.stm (c0 :: ct) % (c0 :: ct).length)
    (Nat.mod_lt _ (Nat.succ_pos _)))
  omega

/-- State of the UCTSearch driver: the shared tree, the shared SimState,
the playout counter m_playouts, the budget m_maxplayouts and the m_run
flag. -/
structure DriverState where
  tree : UCTNode
  sim : SimState
  playouts : Nat
  maxplayouts : Nat
  run : Bool

/-- UCTSearch::is_running from src/src/UCTSearch.cpp. -/
def is_running (ds : DriverState) : Bool :=
  ds.run

/-- UCTSearch::playout_limit_reached from src/src/UCTSearch.cpp:
m_playouts at or above m_maxplayouts. -/
def playout_limit_reached (ds : DriverState) : Bool :=
  decide (ds.maxplayouts ≤ ds.playouts)

/-- UCTSearch::increment_playouts from src/src/UCTSearch.cpp. -/
def increment_playouts (ds : DriverState) : DriverState :=
  { ds with playouts := ds.playouts + 1 }

/-- Shared loop body of think, ponder and UCTWorker from
src/src/UCTSearch.cpp: duplicate the root position, run one descent
against the shared tree, and increment the playout counter exactly when
the descent produced a valid result.  Returns the new driver state and
the descent result. -/
def driver_step (g : Game) (rootPos : Position) (ds : DriverState) :
    DriverState × SearchResult :=
  let out := play_simulation g rootPos ds.tree ds.sim
  let ds1 := { ds with tree := out.node, sim := out.st }
  if out.result.valid then (increment_playouts ds1, out.result)
  else (ds1, out.result)

/-- The do-while driver loop shared by think, ponder and UCTWorker in
src/src/UCTSearch.cpp: the body runs once, then repeats while the
continuation condition holds on the post-state.  The condition is a
parameter (each of the three loops in the source supplies its own, below)
and may consult the iteration number to model externally changing inputs
(the m_run flag cleared by the main thread, the input-pending signal).
The fuel bounds the modelled execution; exhausted fuel corresponds to an
external stop between iterations.  Returns the final state and the trace
of descent results in order. -/
def search_loop (g : Game) (rootPos : Position)
    (cond : Nat → DriverState → Bool) :
    Nat → Nat → DriverState → DriverState × List SearchResult
  | fuel, iter, ds =>
    let s := driver_step g rootPos ds
    match fuel with
    | 0 => (s.1, [s.2])
    | n + 1 =>
      if cond iter s.1 then
        let rest := search_loop g rootPos cond n (iter + 1) s.1
        (rest.1, s.2 :: rest.2)
      else (s.1, [s.2])

/-- Continuation condition of the main loop of UCTSearch::think:
keeprunning = is_running and not playout_limit_reached. -/
def think_cond : Nat → DriverState → Bool :=
  fun _ ds => is_running ds && !playout_limit_reached ds

/-- Continuation condition of the loop in UCTWorker::operator(): the
m_run flag (cleared externally by the main thread, hence read through the
iteration-indexed oracle) and not playout_limit_reached. -/
def worker_cond (runf : Nat → Bool) : Nat → DriverState → Bool :=
  fun i ds => runf i && !playout_limit_reached ds

/-- Continuation condition of the loop in UCTSearch::ponder: no input
pending and still running, both external signals read through
iteration-indexed oracles. -/
def ponder_cond (inputPend : Nat → Bool) (runf : Nat → Bool) :
    Nat → DriverState → Bool :=
  fun i _ => !inputPend i && runf i

/-- Configuration options read by get_best_move. -/
structure Cfg where
  random_cnt : Nat
  resignpct : Int
  min_resign_moves : Nat

/-- Whether node a sorts before node b: primarily more visits, secondarily
higher mean evaluation from the given side's perspective.  Modelled from
the spec for UCTNode::sort_root_children. -/
def node_better (color : Bool) (a b : UCTNode) : Bool :=
  decide (b.visits < a.visits) ||
    ((a.visits == b.visits) && decide (b.get_eval color ≤ a.get_eval color))

/-- Insertion step of the root-children sort. -/
def insert_sorted (color : Bool) (x : UCTNode) :
    List UCTNode → List UCTNode
  | [] => [x]
  | y :: t =>
    if node_better color x y then x :: y :: t else y :: insert_sorted color x t

/-- Modelled from the spec: UCTNode::sort_root_children reorders the
children with the best node first, keyed by visit count descending and
then mean evaluation descending. -/
def sort_root_children (color : Bool) : List UCTNode → List UCTNode
  | [] => []
  | x :: t => insert_sorted color x (sort_root_children color t)

/-- Modelled from the spec: UCTNode::randomize_first_proportionally
promotes one child to the front; the pick itself is a proportional random
draw, supplied as the opaque index i. -/
def randomize_first (i : Nat) : List UCTNode → List UCTNode
  | [] => []
  | c :: t =>
    let j := i % (c :: t).length
    (c :: t).get ⟨j, Nat.mod_lt _ (Nat.succ_pos _)⟩ :: (c :: t).eraseIdx j

/-- The ordered root-children list that UCTSearch::get_best_move works on:
sorted best-first, and additionally randomized proportionally when the
game ply is still below cfg_random_cnt. -/
def root_children_ordered (g : Game) (cfg : Cfg) (rootstate : Position)
    (root : UCTNode) : List UCTNode :=
  let cs := sort_root_children rootstate.stm root.children
  if game_ply rootstate < cfg.random_cnt then randomize_first (g.randIx cs) cs
  else cs

/-- UCTSearch::get_best_move from src/src/UCTSearch.cpp: sort the root
children (randomizing proportionally in the early game), take the first
child's move; if that child was never visited return its move at once;
otherwise resign (MOVE_NONE) exactly when the first child's evaluation is
below cfg_resignpct percent, the root has more than 500 visits and the
game ply exceeds cfg_min_resign_moves.  The source dereferences the first
child unconditionally; an empty children list is undefined there and is
rendered as MOVE_NONE. -/
def get_best_move (g : Game) (cfg : Cfg) (rootstate : Position)
    (root : UCTNode) : Move :=
  let color := rootstate.stm
  match root_children_ordered g cfg rootstate root with
  | [] => MOVE_NONE
  | first :: _ =>
    let bestmove := first.move
    if first.first_visit then bestmove
    else
      let bestscore := first.get_eval color
      let visits := root.visits
      if bestscore < (cfg.resignpct : ℚ) / 100 ∧ 500 < visits ∧
          cfg.min_resign_moves < game_ply rootstate then MOVE_NONE
      else bestmove

mutual

/-- All virtual-loss counters in a tree are zero. -/
def UCTNode.vlClear : UCTNode → Bool
  | .mk _ _ _ _ vl cs => (vl == 0) && vlClearL cs

/-- All virtual-loss counters in a forest are zero. -/
def vlClearL : List UCTNode → Bool
  | [] => true
  | c :: cs => c.vlClear && vlClearL cs

end

/-- A key function that separates positions with different history
lengths: positions with equal keys have histories of the same length.
Zobrist keys have this property along any single descent path, where the
history strictly grows. -/
def keyLenOK (g : Game) : Prop :=
  ∀ p q : Position, g.key p = g.key q → p.hist.length = q.hist.length

/-- All entries of a transposition table are for positions whose history
is shorter than n (so no position at depth n or below can hit them). -/
def ttFresh (g : Game) (tt : List (Nat × (Nat × ℚ))) (n : Nat) : Prop :=
  ∀ e ∈ tt, ∀ p : Position, g.key p = e.1 → p.hist.length < n

/-- A position hash that separates history lengths, used by the concrete
test games below. -/
def keyLen : Position → Nat := fun p => p.hist.length

/-- Concrete game where every position is a rules draw. -/
def gDraw : Game where
  isDraw := fun _ => true
  legalMoves := fun _ => []
  checkers := fun _ => false
  key := keyLen
  netEval := fun _ => none
  evalState := fun _ => 0
  selectIx := fun _ _ => 0
  randIx := fun _ => 0
  maxTreeSize := 10

/-- Concrete game with one legal move from the empty history and a
checkmate (no legal moves, side to move in check) after it. -/
def gMate : Game where
  isDraw := fun _ => false
  legalMoves := fun p => if p.hist.length == 0 then [5] else []
  checkers := fun _ => true
  key := keyLen
  netEval := fun _ => none
  evalState := fun _ => 0
  selectIx := fun _ _ => 0
  randIx := fun _ => 0
  maxTreeSize := 10

/-- Concrete game that is never terminal and whose evaluator never
answers, so every expansion attempt fails. -/
def gStuck : Game where
  isDraw := fun _ => false
  legalMoves := fun _ => [1]
  checkers := fun _ => false
  key := keyLen
  netEval := fun _ => none
  evalState := fun _ => 3 / 4
  selectIx := fun _ _ => 0
  randIx := fun _ => 0
  maxTreeSize := 10

/-- Concrete game whose proportional randomization always picks index 1. -/
def gRand : Game where
  isDraw := fun _ => true
  legalMoves := fun _ => []
  checkers := fun _ => false
  key := keyLen
  netEval := fun _ => none
  evalState := fun _ => 0
  selectIx := fun _ _ => 0
  randIx := fun _ => 1
  maxTreeSize := 10

/-- A fresh childless node reached by move 5. -/
def nodeLeaf : UCTNode := .mk 5 0 0 0 0 []

/-- A root node with the single child nodeLeaf. -/
def nodeParent : UCTNode := .mk 0 0 0 0 0 [nodeLeaf]

/-- A fresh childless root node. -/
def nodeRoot0 : UCTNode := .mk 0 0 0 0 0 []

/-- White to move at the search root. -/
def posWhite : Position := ⟨true, 0, []⟩

/-- Black to move after move 5, checkmated in gMate. -/
def posBlackMated : Position := ⟨false, 0, [5]⟩

/-- Empty search state: no nodes allocated, empty transposition table. -/
def st0 : SimState := ⟨0, []⟩

/-- Search state whose node counter has already reached the gStuck
tree-size bound. -/
def stFull : SimState := ⟨10, []⟩

/-- A well-visited root child: move 7, ten visits, mean evaluation 9/10. -/
def childA : UCTNode := .mk 7 0 10 9 0 []

/-- A less-visited root child: move 8, five visits, mean evaluation 1/5. -/
def childB : UCTNode := .mk 8 0 5 1 0 []

/-- An unvisited root child with move 8. -/
def childZ : UCTNode := .mk 8 0 0 0 0 []

/-- A root whose children are childA and childB, with 600 visits. -/
def rootAB : UCTNode := .mk 0 0 600 300 0 [childA, childB]

/-- A root whose children are childA and the unvisited childZ. -/
def rootAZ : UCTNode := .mk 0 0 600 300 0 [childA, childZ]

/-- A root position thirty plies into the game, White to move. -/
def posPly30 : Position := ⟨true, 30, []⟩

/-- Configuration with no early-game randomization, a ten-percent resign
threshold and no minimum resign ply. -/
def cfgResign : Cfg := ⟨0, 10, 0⟩

/-- Configuration that keeps proportional randomization on until ply 100. -/
def cfgRandom : Cfg := ⟨100, 10, 0⟩

/-- Driver state starting from a fresh childless root, budget five
playouts, running. -/
def dsFresh : DriverState := ⟨nodeRoot0, st0, 0, 5, true⟩

theorem undo_do (p : Position) (m : Move) : undo_move (do_move p m) m = p := by
  cases p
  simp [do_move, undo_move]

theorem play_pos_eq (g : Game) (pos : Position) (node : UCTNode)
    (st : SimState) : (play_simulation g pos node st).pos = pos := by
  induction pos, node, st using play_simulation.induct g with
  | case1 pos st m a a1 a2 a3 =>
    rw [play_simulation.eq_def]
    simp [finish_descent]
  | case2 pos st m a a1 a2 a3 color hash ms st1 c0 ct i child mv ih =>
    rw [play_simulation.eq_def]
    simp only [finish_descent]
    have h2 : undo_move (play_simulation g (do_move pos mv) child st1).pos mv
        = pos := by
      rw [ih]; exact undo_do pos mv
    exact h2

theorem set_get_self {α : Type} : ∀ (cs : List α) (i : Nat) (h : i < cs.length),
    cs.set i (cs.get ⟨i, h⟩) = cs := by
  intro cs
  induction cs with
  | nil => intro i h; simp at h
  | cons c t ih =>
    intro i h
    cases i with
    | zero => simp
    | succ j =>
      simp only [List.set, List.get]
      rw [ih j (by simpa using h)]

theorem leaf_step_terminal (g : Game) (pos : Position) (st1 : SimState)
    (h : (g.isDraw pos || ((g.legalMoves pos).length == 0)) = true) :
    leaf_step g pos st1 =
      (SearchResult.from_score
        (if g.isDraw pos || !(g.checkers pos) then 0
         else if pos.stm then -1 else 1), [], st1) := by
  simp only [leaf_step, h]
  simp

theorem leaf_step_capped (g : Game) (pos : Position) (st1 : SimState)
    (h : (g.isDraw pos || ((g.legalMoves pos).length == 0)) = false)
    (h2 : ¬ st1.nodes < g.maxTreeSize) :
    leaf_step g pos st1 =
      (SearchResult.from_eval (eval_state g pos), [], st1) := by
  simp only [leaf_step, h, h2]
  simp

theorem leaf_step_fail (g : Game) (pos : Position) (st1 : SimState)
    (h : (g.isDraw pos || ((g.legalMoves pos).length == 0)) = false)
    (h2 : st1.nodes < g.maxTreeSize)
    (h3 : create_children g st1.nodes pos = none) :
    leaf_step g pos st1 = (SearchResult.invalid, [], st1) := by
  simp only [leaf_step, h, h2, h3]
  simp


theorem leaf_step_expand (g : Game) (pos : Position) (st1 : SimState)
    (cs2 : List UCTNode) (e : ℚ) (n2 : Nat)
    (h : (g.isDraw pos || ((g.legalMoves pos).length == 0)) = false)
    (h2 : st1.nodes < g.maxTreeSize)
    (h3 : create_children g st1.nodes pos = some (cs2, e, n2)) :
    leaf_step g pos st1 = (SearchResult.from_eval e, cs2, ⟨n2, st1.tt⟩) := by
  simp only [leaf_step, h, h2, h3]
  simp

theorem leaf_step_invalid (g : Game) (pos : Position) (st1 : SimState)
    (h : (leaf_step g pos st1).1.valid = false) :
    leaf_step g pos st1 = (SearchResult.invalid, [], st1) := by
  cases hterm : (g.isDraw pos || ((g.legalMoves pos).length == 0)) with
  | true =>
    rw [leaf_step_terminal g pos st1 hterm] at h
    simp [SearchResult.valid, SearchResult.from_score] at h
  | false =>
    by_cases hcap : st1.nodes < g.maxTreeSize
    · cases hc : create_children g st1.nodes pos with
      | none => exact leaf_step_fail g pos st1 hterm hcap hc
      | some v =>
        obtain ⟨cs2, e, n2⟩ := v
        rw [leaf_step_expand g pos st1 cs2 e n2 hterm hcap hc] at h
        simp [SearchResult.valid, SearchResult.from_eval] at h
    · rw [leaf_step_capped g pos st1 hterm hcap] at h
      simp [SearchResult.valid, SearchResult.from_eval] at h

theorem create_children_some (g : Game) (nodes : Nat) (pos : Position)
    (cs2 : List UCTNode) (e : ℚ) (n2 : Nat)
    (h : create_children g nodes pos = some (cs2, e, n2)) :
    cs2 = (g.legalMoves pos).map
        (fun m => UCTNode.mk m ((g.netEval pos).elim 0 (fun v => v.2 m)) 0 0 0 []) ∧
      n2 = nodes + cs2.length := by
  unfold create_children at h
  cases hne : g.netEval pos with
  | none => rw [hne] at h; cases h
  | some v =>
    obtain ⟨e0, pol⟩ := v
    rw [hne] at h
    simp only [Option.some.injEq, Prod.mk.injEq] at h
    obtain ⟨hcs, he, hn⟩ := h
    subst hcs
    exact ⟨by simp, hn.symm⟩

theorem vlClearL_mem (cs : List UCTNode) (c : UCTNode)
    (h : vlClearL cs = true) (hm : c ∈ cs) : c.vlClear = true := by
  induction cs with
  | nil => cases hm
  | cons x t ih =>
    simp only [vlClearL, Bool.and_eq_true] at h
    rcases List.mem_cons.mp hm with h1 | h2
    · rw [h1]; exact h.1
    · exact ih h.2 h2

theorem vlClearL_set (cs : List UCTNode) (i : Nat) (c : UCTNode)
    (h : vlClearL cs = true) (hc : c.vlClear = true) :
    vlClearL (cs.set i c) = true := by
  induction cs generalizing i with
  | nil => exact h
  | cons x t ih =>
    cases i with
    | zero =>
      simp only [List.set, vlClearL, Bool.and_eq_true]
      simp only [vlClearL, Bool.and_eq_true] at h
      exact ⟨hc, h.2⟩
    | succ j =>
      simp only [List.set, vlClearL, Bool.and_eq_true]
      simp only [vlClearL, Bool.and_eq_true] at h
      exact ⟨h.1, ih j h.2⟩

theorem vlClearL_fresh (ms : List Move) (f : Move → ℚ) :
    vlClearL (ms.map (fun m => UCTNode.mk m (f m) 0 0 0 [])) = true := by
  induction ms with
  | nil => rfl
  | cons m t ih =>
    simp only [List.map, vlClearL, Bool.and_eq_true]
    exact ⟨rfl, ih⟩

theorem leaf_step_vlClear (g : Game) (pos : Position) (st1 : SimState) :
    vlClearL (leaf_step g pos st1).2.1 = true := by
  cases hterm : (g.isDraw pos || ((g.legalMoves pos).length == 0)) with
  | true => rw [leaf_step_terminal g pos st1 hterm]; rfl
  | false =>
    by_cases hcap : st1.nodes < g.maxTreeSize
    · cases hc : create_children g st1.nodes pos with
      | none => rw [leaf_step_fail g pos st1 hterm hcap hc]; rfl
      | some v =>
        obtain ⟨cs2, e, n2⟩ := v
        rw [leaf_step_expand g pos st1 cs2 e n2 hterm hcap hc]
        have h2 := create_children_some g st1.nodes pos cs2 e n2 hc
        rw [h2.1]
        exact vlClearL_fresh _ _
    · rw [leaf_step_capped g pos st1 hterm hcap]; rfl

theorem play_vlClear (g : Game) (pos : Position) (node : UCTNode)
    (st : SimState) (h : node.vlClear = true) :
    (play_simulation g pos node st).node.vlClear = true := by
  induction pos, node, st using play_simulation.induct g with
  | case1 pos st m a a1 a2 a3 =>
    rw [play_simulation.eq_def]
    simp only [finish_descent]
    simp only [UCTNode.vlClear, Bool.and_eq_true] at h ⊢
    refine ⟨?_, leaf_step_vlClear g pos _⟩
    have h3 : a3 = 0 := by simpa using h.1
    simp [h3]
  | case2 pos st m a a1 a2 a3 color hash ms st1 c0 ct i child mv ih =>
    rw [play_simulation.eq_def]
    simp only [finish_descent]
    simp only [UCTNode.vlClear, Bool.and_eq_true] at h ⊢
    have h3 : a3 = 0 := by simpa using h.1
    have hchild : child.vlClear = true :=
      vlClearL_mem _ _ h.2 (List.get_mem _ _ _)
    have hout : (play_simulation g (do_move pos mv) child st1).node.vlClear
        = true := ih hchild
    refine ⟨by simp [h3], ?_⟩
    exact vlClearL_set _ _ _ h.2 hout

theorem play_update (g : Game) (pos : Position) (node : UCTNode)
    (st : SimState)
    (h : (play_simulation g pos node st).result.valid = true) :
    (play_simulation g pos node st).node.visits
        = (ttMerge st.tt (g.key pos) node.visits node.evalSum).1 + 1 ∧
      (play_simulation g pos node st).node.evalSum
        = (ttMerge st.tt (g.key pos) node.visits node.evalSum).2
            + (play_simulation g pos node st).result.evalValue := by
  obtain ⟨mv, pr, vis, ev, vl, cs⟩ := node
  cases cs with
  | nil =>
    rw [play_simulation.eq_def] at h ⊢
    simp only [finish_descent] at h ⊢
    simp [h, UCTNode.visits, UCTNode.evalSum]
  | cons c0 ct =>
    rw [play_simulation.eq_def] at h ⊢
    simp only [finish_descent, List.get_eq_getElem, List.length_cons] at h ⊢
    simp [h, UCTNode.visits, UCTNode.evalSum]

theorem play_tt_head (g : Game) (pos : Position) (node : UCTNode)
    (st : SimState) :
    ttFind (play_simulation g pos node st).st.tt (g.key pos)
      = some ((play_simulation g pos node st).node.visits,
              (play_simulation g pos node st).node.evalSum) := by
  obtain ⟨mv, pr, vis, ev, vl, cs⟩ := node
  cases cs with
  | nil =>
    rw [play_simulation.eq_def]
    simp [finish_descent, ttFind, UCTNode.visits, UCTNode.evalSum]
  | cons c0 ct =>
    rw [play_simulation.eq_def]
    simp [finish_descent, ttFind, UCTNode.visits, UCTNode.evalSum]

theorem ttFresh_nil (g : Game) (n : Nat) : ttFresh g [] n := by
  intro e he
  cases he

theorem ttFresh_find (g : Game) (tt : List (Nat × (Nat × ℚ))) (n : Nat)
    (h : ttFresh g tt n) (p : Position) (hp : p.hist.length = n) :
    ttFind tt (g.key p) = none := by
  induction tt with
  | nil => rfl
  | cons e t ih =>
    obtain ⟨k, s⟩ := e
    simp only [ttFind]
    by_cases hk : k = g.key p
    · exfalso
      have := h (k, s) (List.mem_cons_self _ _) p hk.symm
      omega
    · simp only [hk, if_false]
      exact ih (fun e2 he2 => h e2 (List.mem_cons_of_mem _ he2))

theorem ttFresh_cons (g : Game) (hk : keyLenOK g)
    (tt : List (Nat × (Nat × ℚ))) (q : Position) (s : Nat × ℚ)
    (h : ttFresh g tt q.hist.length) :
    ttFresh g ((g.key q, s) :: tt) (q.hist.length + 1) := by
  intro e he p hp
  rcases List.mem_cons.mp he with h1 | h2
  · rw [h1] at hp
    have := hk p q hp
    omega
  · have := h e h2 p hp
    omega

theorem ttMerge_fresh (g : Game) (tt : List (Nat × (Nat × ℚ))) (n : Nat)
    (h : ttFresh g tt n) (p : Position) (hp : p.hist.length = n)
    (vis : Nat) (ev : ℚ) : ttMerge tt (g.key p) vis ev = (vis, ev) := by
  unfold ttMerge
  rw [ttFresh_find g tt n h p hp]

theorem set_getElem_self (cs : List UCTNode) (i : Nat)
    (h : i < cs.length) : cs.set i cs[i] = cs := by
  have := set_get_self cs i h
  simpa using this

theorem ttFind_cons_ne (t : List (Nat × (Nat × ℚ))) (k h : Nat)
    (s : Nat × ℚ) (hne : k ≠ h) : ttFind ((k, s) :: t) h = ttFind t h := by
  simp [ttFind, hne]

theorem descent_path_self (g : Game) (pos : Position) (node : UCTNode) :
    (pos, node) ∈ descent_path g pos node := by
  obtain ⟨mv, pr, vis, ev, vl, cs⟩ := node
  rw [descent_path.eq_def]
  cases cs <;> simp

theorem descent_path_len (g : Game) (pos : Position) (node : UCTNode) :
    ∀ e ∈ descent_path g pos node, pos.hist.length ≤ e.1.hist.length := by
  induction pos, node using descent_path.induct g with
  | case1 pos mv pr vis ev vl =>
    intro e he
    rw [descent_path.eq_def] at he
    simp only [List.mem_singleton] at he
    subst he
    exact Nat.le_refl _
  | case2 pos mv pr vis ev vl c0 ct i child ih =>
    intro e he
    rw [descent_path.eq_def] at he
    simp only [List.get_eq_getElem, List.length_cons, List.mem_cons] at he ih
    rcases he with he | he
    · subst he
      exact Nat.le_refl _
    · have h2 := ih e he
      have hlen : (do_move pos child.move).hist.length
          = pos.hist.length + 1 := by
        simp [do_move]
      omega

theorem play_invalid_frame (g : Game) (hk : keyLenOK g) (pos : Position)
    (node : UCTNode) (st : SimState)
    (hf : ttFresh g st.tt pos.hist.length)
    (h : (play_simulation g pos node st).result.valid = false) :
    (play_simulation g pos node st).node = node ∧
      (play_simulation g pos node st).st.nodes = st.nodes ∧
      ∀ e ∈ descent_path g pos node,
        ttFind (play_simulation g pos node st).st.tt (g.key e.1)
          = some (e.2.visits, e.2.evalSum) := by
  induction pos, node, st using play_simulation.induct g with
  | case1 pos st m a a1 a2 a3 =>
    rw [play_simulation.eq_def] at h ⊢
    simp only [finish_descent] at h ⊢
    have hms : ttMerge st.tt (g.key pos) a1 a2 = (a1, a2) :=
      ttMerge_fresh g st.tt pos.hist.length hf pos rfl a1 a2
    have hls := leaf_step_invalid g pos
      ⟨st.nodes, (g.key pos, ttMerge st.tt (g.key pos) a1 a2) :: st.tt⟩ h
    rw [hls] at h ⊢
    refine ⟨by simp [hms, SearchResult.valid], rfl, ?_⟩
    intro e he
    rw [descent_path.eq_def] at he
    simp only [List.mem_singleton] at he
    subst he
    simp [ttFind, SearchResult.valid, hms, UCTNode.visits, UCTNode.evalSum]
  | case2 pos st m a a1 a2 a3 color hash ms st1 c0 ct i child mv ih =>
    have hf1 : ttFresh g st1.tt ((do_move pos mv).hist.length) := by
      have hlen : (do_move pos mv).hist.length = pos.hist.length + 1 := by
        simp [do_move]
      rw [hlen]
      exact ttFresh_cons g hk st.tt pos ms hf
    have hpathlen := descent_path_len g (do_move pos mv) child
    have hlen2 : (do_move pos mv).hist.length = pos.hist.length + 1 := by
      simp [do_move]
    unfold mv child i st1 ms hash color at ih hf1
    rw [play_simulation.eq_def] at h ⊢
    simp only [finish_descent, List.get_eq_getElem, List.length_cons]
      at h ih hf1 ⊢
    obtain ⟨ihn, ihs, ihp⟩ := ih hf1 h
    have hms : ttMerge st.tt (g.key pos) a1 a2 = (a1, a2) :=
      ttMerge_fresh g st.tt pos.hist.length hf pos rfl a1 a2
    refine ⟨?_, ?_, ?_⟩
    · rw [ihn]
      rw [set_getElem_self]
      simp only [h]
      rw [hms]
      simp
    · exact ihs
    · intro e he
      rw [descent_path.eq_def] at he
      simp only [List.get_eq_getElem, List.length_cons, List.mem_cons] at he
      rcases he with he | he
      · subst he
        simp only [ttFind, if_pos rfl, h]
        rw [hms]
        simp [UCTNode.visits, UCTNode.evalSum]
      · have hge := hpathlen e he
        have hne : g.key pos ≠ g.key e.1 := by
          intro hq
          have heq := hk pos e.1 hq
          omega
        rw [ttFind_cons_ne _ _ _ _ hne]
        exact ihp e he

theorem driver_step_tree (g : Game) (rootPos : Position) (ds : DriverState) :
    (driver_step g rootPos ds).1.tree
      = (play_simulation g rootPos ds.tree ds.sim).node := by
  simp only [driver_step, increment_playouts]
  split <;> rfl

theorem driver_step_playouts (g : Game) (rootPos : Position)
    (ds : DriverState) :
    (driver_step g rootPos ds).1.playouts
      = ds.playouts + (if (driver_step g rootPos ds).2.valid then 1 else 0) := by
  simp only [driver_step, increment_playouts]
  split <;> simp

theorem search_loop_playouts (g : Game) (rootPos : Position)
    (cond : Nat → DriverState → Bool) (fuel : Nat) :
    ∀ (iter : Nat) (ds : DriverState),
    (search_loop g rootPos cond fuel iter ds).1.playouts
      = ds.playouts
        + ((search_loop g rootPos cond fuel iter ds).2.countP
            SearchResult.valid) := by
  induction fuel with
  | zero =>
    intro iter ds
    simp only [search_loop, List.countP_cons, List.countP_nil]
    rw [driver_step_playouts]
    split <;> simp
  | succ n ih =>
    intro iter ds
    simp only [search_loop]
    split
    · simp only [List.countP_cons]
      rw [ih (iter + 1) (driver_step g rootPos ds).1]
      rw [driver_step_playouts]
      split <;> omega
    · simp only [List.countP_cons, List.countP_nil]
      rw [driver_step_playouts]
      split <;> simp

theorem search_loop_trace (g : Game) (rootPos : Position)
    (cond : Nat → DriverState → Bool) (fuel iter : Nat) (ds : DriverState) :
    1 ≤ (search_loop g rootPos cond fuel iter ds).2.length := by
  cases fuel with
  | zero => simp [search_loop]
  | succ n =>
    simp only [search_loop]
    split <;> simp

theorem search_loop_vlClear (g : Game) (rootPos : Position)
    (cond : Nat → DriverState → Bool) (fuel : Nat) :
    ∀ (iter : Nat) (ds : DriverState), ds.tree.vlClear = true →
    (search_loop g rootPos cond fuel iter ds).1.tree.vlClear = true := by
  induction fuel with
  | zero =>
    intro iter ds h
    simp only [search_loop]
    rw [driver_step_tree]
    exact play_vlClear g rootPos ds.tree ds.sim h
  | succ n ih =>
    intro iter ds h
    have hstep : (driver_step g rootPos ds).1.tree.vlClear = true := by
      rw [driver_step_tree]
      exact play_vlClear g rootPos ds.tree ds.sim h
    simp only [search_loop]
    split
    · exact ih (iter + 1) (driver_step g rootPos ds).1 hstep
    · exact hstep

theorem gbm_sorted_shape (g : Game) (cfg : Cfg) (rootstate : Position)
    (root : UCTNode) (first : UCTNode) (rest : List UCTNode)
    (hsort : sort_root_children rootstate.stm root.children = first :: rest)
    (hrand : cfg.random_cnt ≤ game_ply rootstate)
    (hv : first.first_visit = false) :
    get_best_move g cfg rootstate root
      = (if first.get_eval rootstate.stm < (cfg.resignpct : ℚ) / 100 ∧
            500 < root.visits ∧
            cfg.min_resign_moves < game_ply rootstate
         then MOVE_NONE else first.move) := by
  have hnr : ¬ (game_ply rootstate < cfg.random_cnt) := Nat.not_lt.mpr hrand
  unfold get_best_move root_children_ordered
  rw [if_neg hnr, hsort]
  simp only [hv]
  simp

theorem gbm_ordered_first (g : Game) (cfg : Cfg) (rootstate : Position)
    (root : UCTNode) (first : UCTNode) (rest : List UCTNode)
    (hord : root_children_ordered g cfg rootstate root = first :: rest)
    (h0 : first.visits = 0) :
    get_best_move g cfg rootstate root = first.move := by
  unfold get_best_move
  rw [hord]
  simp [UCTNode.first_visit, h0]

/-- C8: play_simulation leaves the position it was given unchanged; in
particular its hash and side to move before and after the call are equal
(the model returns the position threaded through do_move and undo_move in
the SimOut record). -/
theorem claim_c8 (g : Game) (pos : Position) (node : UCTNode)
    (st : SimState) :
    g.key (play_simulation g pos node st).pos = g.key pos ∧
      (play_simulation g pos node st).pos.stm = pos.stm := by
  rw [play_pos_eq]
  exact ⟨rfl, rfl⟩

/-- C3: every descent applies virtual loss once on entry and undoes it
once on the way back, on every path including invalid descents; hence a
tree whose virtual-loss counters are all zero keeps them all zero across
the think, worker and ponder loops, which is the state tg.wait_all
observes. -/
theorem claim_c3 (g : Game) (rootPos : Position)
    (runf inputPend : Nat → Bool) (fuel iter : Nat) (ds : DriverState)
    (h : ds.tree.vlClear = true) :
    (search_loop g rootPos think_cond fuel iter ds).1.tree.vlClear = true ∧
      (search_loop g rootPos (worker_cond runf) fuel iter ds).1.tree.vlClear
        = true ∧
      (search_loop g rootPos (ponder_cond inputPend runf) fuel iter
          ds).1.tree.vlClear = true :=
  ⟨search_loop_vlClear g rootPos think_cond fuel iter ds h,
   search_loop_vlClear g rootPos (worker_cond runf) fuel iter ds h,
   search_loop_vlClear g rootPos (ponder_cond inputPend runf) fuel iter ds h⟩

/-- C4: in the think loop, in every worker loop and in the ponder loop the
playout counter is incremented exactly once per descent with a valid
result and never for an invalid descent, so the final playout count is
the initial one plus the number of valid results in the descent trace. -/
theorem claim_c4 (g : Game) (rootPos : Position)
    (runf inputPend : Nat → Bool) (fuel iter : Nat) (ds : DriverState) :
    (search_loop g rootPos think_cond fuel iter ds).1.playouts
        = ds.playouts
          + ((search_loop g rootPos think_cond fuel iter ds).2.countP
              SearchResult.valid) ∧
      (search_loop g rootPos (worker_cond runf) fuel iter ds).1.playouts
        = ds.playouts
          + ((search_loop g rootPos (worker_cond runf) fuel iter
              ds).2.countP SearchResult.valid) ∧
      (search_loop g rootPos (ponder_cond inputPend runf) fuel iter
          ds).1.playouts
        = ds.playouts
          + ((search_loop g rootPos (ponder_cond inputPend runf) fuel iter
              ds).2.countP SearchResult.valid) :=
  ⟨search_loop_playouts g rootPos think_cond fuel iter ds,
   search_loop_playouts g rootPos (worker_cond runf) fuel iter ds,
   search_loop_playouts g rootPos (ponder_cond inputPend runf) fuel iter ds⟩

/-- C10: the think, worker and ponder loops are do-while loops: whatever
the entry state (budget already reached, running flag false, zero fuel),
at least one descent is performed before any stop condition is consulted,
so the descent trace is never empty. -/
theorem claim_c10 (g : Game) (rootPos : Position)
    (runf inputPend : Nat → Bool) (fuel iter : Nat) (ds : DriverState) :
    1 ≤ (search_loop g rootPos think_cond fuel iter ds).2.length ∧
      1 ≤ (search_loop g rootPos (worker_cond runf) fuel iter ds).2.length ∧
      1 ≤ (search_loop g rootPos (ponder_cond inputPend runf) fuel iter
          ds).2.length :=
  ⟨search_loop_trace g rootPos think_cond fuel iter ds,
   search_loop_trace g rootPos (worker_cond runf) fuel iter ds,
   search_loop_trace g rootPos (ponder_cond inputPend runf) fuel iter ds⟩

theorem play_leaf_terminal (g : Game) (pos : Position) (node : UCTNode)
    (st : SimState) (hcs : node.children = [])
    (hterm : (g.isDraw pos || ((g.legalMoves pos).length == 0)) = true) :
    (play_simulation g pos node st).result
      = SearchResult.from_score
          (if g.isDraw pos || !(g.checkers pos) then 0
           else if pos.stm then -1 else 1) := by
  obtain ⟨mv, pr, vis, ev, vl, cs⟩ := node
  have hcs2 : cs = [] := hcs
  subst hcs2
  rw [play_simulation.eq_def]
  simp only [finish_descent]
  rw [leaf_step_terminal _ _ _ hterm]

/-- C1 amended: at a childless node whose position is terminal (rules
draw or no legal moves), the descent result is from_score of the source's
score expression: 0 when drawn or not in check (evaluation one half), and
otherwise -1 when White is to move (evaluation 0) and +1 when Black is to
move (evaluation 1); the score is White-perspective, not
loss-for-the-mover. -/
theorem claim_c1 (g : Game) (pos : Position) (node : UCTNode)
    (st : SimState) (hcs : node.children = [])
    (hterm : (g.isDraw pos || ((g.legalMoves pos).length == 0)) = true) :
    (play_simulation g pos node st).result
      = SearchResult.from_score
          (if g.isDraw pos || !(g.checkers pos) then 0
           else if pos.stm then -1 else 1) :=
  play_leaf_terminal g pos node st hcs hterm

/-- C1 counterexample: in gMate with Black to move, checkmated (no legal
moves, in check, not a draw), the descent result carries evaluation 1,
not the evaluation 0 the claim promises for the side to move. -/
theorem claim_c1_cex :
    gMate.isDraw posBlackMated = false ∧
      gMate.legalMoves posBlackMated = [] ∧
      gMate.checkers posBlackMated = true ∧
      posBlackMated.stm = false ∧
      (play_simulation gMate posBlackMated nodeLeaf st0).result
        = SearchResult.valued 1 ∧
      SearchResult.valued (1 : ℚ) ≠ SearchResult.valued 0 := by
  refine ⟨rfl, by decide, rfl, rfl, ?_, by simp⟩
  rw [play_simulation.eq_def]
  simp only [nodeLeaf, finish_descent]
  rw [leaf_step_terminal _ _ _ (by decide)]
  simp only [SearchResult.from_score]
  norm_num [gMate, posBlackMated]

/-- C1 witness: a drawn terminal position is scored 0, giving evaluation
one half through from_score. -/
theorem claim_c1_witness :
    nodeRoot0.children = [] ∧
      (gDraw.isDraw posWhite
        || ((gDraw.legalMoves posWhite).length == 0)) = true ∧
      (play_simulation gDraw posWhite nodeRoot0 st0).result
        = SearchResult.from_score
            (if gDraw.isDraw posWhite || !(gDraw.checkers posWhite) then 0
             else if posWhite.stm then -1 else 1) :=
  ⟨rfl, by decide, claim_c1 gDraw posWhite nodeRoot0 st0 rfl (by decide)⟩

/-- C2 amended: whenever a descent returns a valid result, the node is
updated with exactly the returned evaluation, unflipped: visits grow by
one and the evaluation sum grows by the result's own evalValue (the same
value the recursive call returned), on top of the statistics adopted from
the transposition table on entry.  There is no per-level 1 - eval
conversion in the source. -/
theorem claim_c2 (g : Game) (pos : Position) (node : UCTNode)
    (st : SimState)
    (h : (play_simulation g pos node st).result.valid = true) :
    (play_simulation g pos node st).node.visits
        = (ttMerge st.tt (g.key pos) node.visits node.evalSum).1 + 1 ∧
      (play_simulation g pos node st).node.evalSum
        = (ttMerge st.tt (g.key pos) node.visits node.evalSum).2
            + (play_simulation g pos node st).result.evalValue :=
  play_update g pos node st h

/-- C2 counterexample: a one-child tree in gMate where the child descent
returns evaluation 1 (Black checkmated).  The parent starts at
evaluation sum 0 and is updated to 1, the child's returned evaluation
unchanged, whereas the claim's 1 - eval convention would have updated it
to 1 - 1 = 0. -/
theorem claim_c2_cex :
    nodeParent.evalSum = 0 ∧
      (play_simulation gMate posWhite nodeParent st0).result
        = SearchResult.valued 1 ∧
      (play_simulation gMate posWhite nodeParent st0).node.evalSum = 1 ∧
      ((1 : ℚ) ≠ 1 - 1) := by
  have hres : (play_simulation gMate (Position.mk false 0 [5]) nodeLeaf
      ⟨0, [(0, (0, 0))]⟩).result = SearchResult.valued 1 := by
    rw [play_simulation.eq_def]
    simp only [nodeLeaf, finish_descent]
    rw [leaf_step_terminal _ _ _ (by decide)]
    simp only [SearchResult.from_score]
    norm_num [gMate]
  have hresOuter : (play_simulation gMate posWhite nodeParent st0).result
      = SearchResult.valued 1 := by
    rw [play_simulation.eq_def]
    simp only [nodeParent, finish_descent, gMate, posWhite, st0]
    simp only [List.length_cons, List.length_nil, Nat.zero_mod,
      List.get_eq_getElem, List.getElem_cons_zero]
    simp only [nodeLeaf, UCTNode.move, do_move, keyLen, ttMerge, ttFind]
    exact hres
  have hv : (play_simulation gMate posWhite nodeParent st0).result.valid
      = true := by
    rw [hresOuter]; rfl
  have hupd := play_update gMate posWhite nodeParent st0 hv
  refine ⟨rfl, hresOuter, ?_, by norm_num⟩
  rw [hupd.2, hresOuter]
  norm_num [ttMerge, ttFind, st0, nodeParent, SearchResult.evalValue,
    UCTNode.evalSum, UCTNode.visits]

/-- C2 witness: a drawn terminal descent in gDraw returns a valid result,
and the root node is updated with exactly that result's evaluation. -/
theorem claim_c2_witness :
    (play_simulation gDraw posWhite nodeRoot0 st0).result.valid = true ∧
      ((play_simulation gDraw posWhite nodeRoot0 st0).node.visits
          = (ttMerge st0.tt (gDraw.key posWhite) nodeRoot0.visits
              nodeRoot0.evalSum).1 + 1 ∧
        (play_simulation gDraw posWhite nodeRoot0 st0).node.evalSum
          = (ttMerge st0.tt (gDraw.key posWhite) nodeRoot0.visits
              nodeRoot0.evalSum).2
              + (play_simulation gDraw posWhite nodeRoot0
                  st0).result.evalValue) := by
  have hv : (play_simulation gDraw posWhite nodeRoot0 st0).result.valid
      = true := by
    rw [play_simulation.eq_def]
    simp only [nodeRoot0, finish_descent]
    rw [leaf_step_terminal _ _ _ (by decide)]
    rfl
  exact ⟨hv, claim_c2 gDraw posWhite nodeRoot0 st0 hv⟩

/-- C5: at a childless non-terminal node with the node counter at or
above MAX_TREE_SIZE, the descent does not expand: it evaluates the
position in place through eval_state, the result is valid, the node stays
childless and the node counter is unchanged. -/
theorem claim_c5 (g : Game) (pos : Position) (node : UCTNode)
    (st : SimState) (hcs : node.children = [])
    (hterm : (g.isDraw pos || ((g.legalMoves pos).length == 0)) = false)
    (hcap : g.maxTreeSize ≤ st.nodes) :
    (play_simulation g pos node st).result
        = SearchResult.from_eval (eval_state g pos) ∧
      (play_simulation g pos node st).result.valid = true ∧
      (play_simulation g pos node st).node.children = [] ∧
      (play_simulation g pos node st).st.nodes = st.nodes := by
  obtain ⟨mv, pr, vis, ev, vl, cs⟩ := node
  have hcs2 : cs = [] := hcs
  subst hcs2
  rw [play_simulation.eq_def]
  simp only [finish_descent]
  rw [leaf_step_capped g pos
    ⟨st.nodes, (g.key pos, ttMerge st.tt (g.key pos) vis ev) :: st.tt⟩
    hterm (Nat.not_lt.mpr hcap)]
  exact ⟨rfl, rfl, rfl, rfl⟩

/-- C5 witness: in gStuck with the node counter already at the bound,
the childless root is evaluated in place. -/
theorem claim_c5_witness :
    nodeRoot0.children = [] ∧
      (gStuck.isDraw posWhite
        || ((gStuck.legalMoves posWhite).length == 0)) = false ∧
      gStuck.maxTreeSize ≤ stFull.nodes ∧
      ((play_simulation gStuck posWhite nodeRoot0 stFull).result
          = SearchResult.from_eval (eval_state gStuck posWhite) ∧
        (play_simulation gStuck posWhite nodeRoot0 stFull).result.valid
          = true ∧
        (play_simulation gStuck posWhite nodeRoot0 stFull).node.children
          = [] ∧
        (play_simulation gStuck posWhite nodeRoot0 stFull).st.nodes
          = stFull.nodes) :=
  ⟨rfl, by decide, by decide,
   claim_c5 gStuck posWhite nodeRoot0 stFull rfl (by decide) (by decide)⟩

/-- C9 amended: on an Invalid descent update() runs on no node, so the
only way path statistics can change is the transposition-table sync
stat-merge on entry (see the counterexample).  When no merge fires - the
search started with an empty table and the hash separates history
lengths, so no collision can replay a registered entry - the tree is
returned entirely unchanged (visit and evaluation statistics untouched,
virtual loss undone), the node counter is unchanged, and the
transposition-table entry of every node on the descent path, the entry
node in particular, is still refreshed with that node's (unchanged)
statistics. -/
theorem claim_c9 (g : Game) (pos : Position) (node : UCTNode)
    (st : SimState) (hk : keyLenOK g) (htt : st.tt = [])
    (h : (play_simulation g pos node st).result.valid = false) :
    (play_simulation g pos node st).node = node ∧
      (play_simulation g pos node st).st.nodes = st.nodes ∧
      (∀ e ∈ descent_path g pos node,
        ttFind (play_simulation g pos node st).st.tt (g.key e.1)
          = some (e.2.visits, e.2.evalSum)) ∧
      ttFind (play_simulation g pos node st).st.tt (g.key pos)
        = some (node.visits, node.evalSum) := by
  have hf : ttFresh g st.tt pos.hist.length := by
    rw [htt]; exact ttFresh_nil g _
  have hframe := play_invalid_frame g hk pos node st hf h
  exact ⟨hframe.1, hframe.2.1, hframe.2.2,
    hframe.2.2 (pos, node) (descent_path_self g pos node)⟩

/-- C9 witness: in gStuck the evaluator never answers, so the descent
from a fresh childless root with an empty table is invalid and leaves the
tree unchanged while still refreshing the transposition-table entry of
every node on the (one-node) descent path. -/
theorem claim_c9_witness :
    keyLenOK gStuck ∧ st0.tt = [] ∧
      (play_simulation gStuck posWhite nodeRoot0 st0).result.valid
        = false ∧
      ((play_simulation gStuck posWhite nodeRoot0 st0).node = nodeRoot0 ∧
        (play_simulation gStuck posWhite nodeRoot0 st0).st.nodes
          = st0.nodes ∧
        (∀ e ∈ descent_path gStuck posWhite nodeRoot0,
          ttFind (play_simulation gStuck posWhite nodeRoot0 st0).st.tt
              (gStuck.key e.1)
            = some (e.2.visits, e.2.evalSum)) ∧
        ttFind (play_simulation gStuck posWhite nodeRoot0 st0).st.tt
            (gStuck.key posWhite)
          = some (nodeRoot0.visits, nodeRoot0.evalSum)) := by
  have hk : keyLenOK gStuck := fun p q hpq => hpq
  have hv : (play_simulation gStuck posWhite nodeRoot0 st0).result.valid
      = false := by
    rw [play_simulation.eq_def]
    simp only [nodeRoot0, finish_descent]
    rw [leaf_step_fail gStuck posWhite
      ⟨st0.nodes, (gStuck.key posWhite,
        ttMerge st0.tt (gStuck.key posWhite) 0 0) :: st0.tt⟩
      (by decide) (by decide) rfl]
    rfl
  exact ⟨hk, rfl, hv, claim_c9 gStuck posWhite nodeRoot0 st0 hk rfl hv⟩

/-- C9 counterexample: the same failing descent started with a populated
transposition table whose entry (visits 5, evaluation sum 3) is
registered for the entry hash.  The result is Invalid, yet the sync
stat-merge on entry rewrites the node statistics from 0/0 to 5/3, so the
node statistics on the path are not unchanged, against what the
unconditional claim states. -/
theorem claim_c9_cex :
    (play_simulation gStuck posWhite nodeRoot0
        ⟨0, [(0, (5, 3))]⟩).result.valid = false ∧
      nodeRoot0.visits = 0 ∧ nodeRoot0.evalSum = 0 ∧
      (play_simulation gStuck posWhite nodeRoot0
          ⟨0, [(0, (5, 3))]⟩).node.visits = 5 ∧
      (play_simulation gStuck posWhite nodeRoot0
          ⟨0, [(0, (5, 3))]⟩).node.evalSum = 3 ∧
      (5 : Nat) ≠ 0 := by
  have hls := leaf_step_fail gStuck posWhite
    ⟨(0 : Nat), (gStuck.key posWhite,
      ttMerge [(0, (5, 3))] (gStuck.key posWhite) 0 0) :: [(0, (5, 3))]⟩
    (by decide) (by decide) rfl
  refine ⟨?_, rfl, rfl, ?_, ?_, by decide⟩
  · rw [play_simulation.eq_def]
    simp only [nodeRoot0, finish_descent]
    rw [hls]
    rfl
  · rw [play_simulation.eq_def]
    simp only [nodeRoot0, finish_descent]
    rw [hls]
    simp [SearchResult.valid, UCTNode.visits, ttMerge, ttFind, gStuck,
      keyLen, posWhite]
  · rw [play_simulation.eq_def]
    simp only [nodeRoot0, finish_descent]
    rw [hls]
    simp [SearchResult.valid, UCTNode.evalSum, ttMerge, ttFind, gStuck,
      keyLen, posWhite]

/-- C6: with proportional randomization off (the game ply is at or past
cfg_random_cnt) and a visited first child after sorting, get_best_move
returns MOVE_NONE exactly when the best (first sorted) child's evaluation
from the root side's perspective is below cfg_resignpct percent, the root
has more than 500 visits and the game ply exceeds cfg_min_resign_moves;
otherwise it returns the first sorted child's move. -/
theorem claim_c6 (g : Game) (cfg : Cfg) (rootstate : Position)
    (root : UCTNode) (first : UCTNode) (rest : List UCTNode)
    (hsort : sort_root_children rootstate.stm root.children = first :: rest)
    (hrand : cfg.random_cnt ≤ game_ply rootstate)
    (hv : first.first_visit = false)
    (hm : first.move ≠ MOVE_NONE) :
    (get_best_move g cfg rootstate root = MOVE_NONE ↔
      (first.get_eval rootstate.stm < (cfg.resignpct : ℚ) / 100 ∧
        500 < root.visits ∧ cfg.min_resign_moves < game_ply rootstate)) ∧
    (get_best_move g cfg rootstate root ≠ MOVE_NONE →
      get_best_move g cfg rootstate root = first.move) := by
  have hshape := gbm_sorted_shape g cfg rootstate root first rest hsort hrand hv
  by_cases hC : first.get_eval rootstate.stm < (cfg.resignpct : ℚ) / 100 ∧
      500 < root.visits ∧ cfg.min_resign_moves < game_ply rootstate
  · rw [hshape, if_pos hC]
    exact ⟨⟨fun _ => hC, fun _ => rfl⟩, fun hne => absurd rfl hne⟩
  · rw [hshape, if_neg hC]
    exact ⟨⟨fun he => absurd he hm, fun hc => absurd hc hC⟩, fun _ => rfl⟩

/-- C6 witness: a healthy root (first child at nine tenths, well visited)
does not resign and plays the first sorted child's move. -/
theorem claim_c6_witness :
    sort_root_children posPly30.stm rootAB.children = childA :: [childB] ∧
      cfgResign.random_cnt ≤ game_ply posPly30 ∧
      childA.first_visit = false ∧
      childA.move ≠ MOVE_NONE ∧
      ((get_best_move gDraw cfgResign posPly30 rootAB = MOVE_NONE ↔
        (childA.get_eval posPly30.stm < (cfgResign.resignpct : ℚ) / 100 ∧
          500 < rootAB.visits ∧
          cfgResign.min_resign_moves < game_ply posPly30)) ∧
      (get_best_move gDraw cfgResign posPly30 rootAB ≠ MOVE_NONE →
        get_best_move gDraw cfgResign posPly30 rootAB = childA.move)) :=
  ⟨rfl, by decide, by decide, by decide,
   claim_c6 gDraw cfgResign posPly30 rootAB childA [childB] rfl (by decide)
     (by decide) (by decide)⟩

/-- C7: if the first root child after sorting and the optional
proportional randomization has zero visits, get_best_move still returns
that child's move. -/
theorem claim_c7 (g : Game) (cfg : Cfg) (rootstate : Position)
    (root : UCTNode) (first : UCTNode) (rest : List UCTNode)
    (hord : root_children_ordered g cfg rootstate root = first :: rest)
    (h0 : first.visits = 0) :
    get_best_move g cfg rootstate root = first.move :=
  gbm_ordered_first g cfg rootstate root first rest hord h0

/-- C7 witness: randomization promotes the unvisited childZ to the front
and get_best_move returns its move anyway. -/
theorem claim_c7_witness :
    root_children_ordered gRand cfgRandom posPly30 rootAZ
        = childZ :: [childA] ∧
      childZ.visits = 0 ∧
      get_best_move gRand cfgRandom posPly30 rootAZ = childZ.move :=
  ⟨rfl, rfl,
   claim_c7 gRand cfgRandom posPly30 rootAZ childZ [childA] rfl rfl⟩

/-- C3 witness: one iteration of each driver loop on a fresh root keeps
every virtual-loss counter at zero. -/
theorem claim_c3_witness :
    dsFresh.tree.vlClear = true ∧
      ((search_loop gDraw posWhite think_cond 1 0 dsFresh).1.tree.vlClear
          = true ∧
        (search_loop gDraw posWhite (worker_cond (fun _ => true)) 1 0
            dsFresh).1.tree.vlClear = true ∧
        (search_loop gDraw posWhite
            (ponder_cond (fun _ => false) (fun _ => true)) 1 0
            dsFresh).1.tree.vlClear = true) := by
  have h : dsFresh.tree.vlClear = true := by
    simp [dsFresh, nodeRoot0, UCTNode.vlClear, vlClearL]
  exact ⟨h, claim_c3 gDraw posWhite (fun _ => true) (fun _ => false) 1 0
    dsFresh h⟩
